import Mathlib

/-!
Shallow embedding of the geoclue2to1 bridge daemon (GeoClue2-to-GeoClue1
adapter) and proofs about it.

The embedding follows the C++ sources:
* `src/geoclue1_backend.{h,cpp}` — the GeoClue1 (v1) backend: velocity cache,
  position/velocity signal handlers, MasterClient start/stop protocol and the
  provider-change handler;
* `src/geoclue2_client.{h,cpp}`  — the per-peer Client entity;
* `src/geoclue2_manager.{h,cpp}` — the Manager: client registries keyed by
  peer and by object path, active-client accounting, the recent-location
  deque and the grace timer;
* `src/main.cpp`                 — command-line parsing and wiring.

C++ `double` values carried over D-Bus are modelled as rationals, with an
explicit NaN constructor where the code tests `std::isnan`. Machine state
mutated by handlers is modelled by explicit state passing; fallible D-Bus
calls are parameterized by an environment record giving each call an
outcome.
-/

/-- A D-Bus double as received from GeoClue1: either NaN or a numeric value.
The code only ever branches on NaN-ness (in the velocity handler); all other
arithmetic is mere copying, so rationals are a faithful carrier. -/
inductive GDouble where
  | nan : GDouble
  | num : ℚ → GDouble
deriving DecidableEq

/-- `std::isnan(speed) ? -1.0 : speed` from `on_velocity_changed`. -/
def GDouble.sanitize : GDouble → ℚ
  | .nan => -1
  | .num q => q

/-- C++ conversion from `bool` to an integer (`false ↦ 0`, `true ↦ 1`),
as happens when `m_last_velocity.is_fresh` takes part in arithmetic. -/
def boolToInt (b : Bool) : Int := if b then 1 else 0

/-- C++ conversion from an integer to `bool` (zero ↦ `false`, nonzero ↦
`true`), as happens when an integer is assigned to the `bool` member
`is_fresh`. -/
def intToBool (i : Int) : Bool := i != 0

/-- `const size_t VELOCITY_FRESH_STEPS = 2;` — "Number of location updates
while velocity is considered fresh" (geoclue1_backend.cpp line 7). -/
def VELOCITY_FRESH_STEPS : Nat := 2

/-- The `m_last_velocity` member of `Geoclue1Backend`
(geoclue1_backend.h lines 61-66).  NOTE: in the header the field `is_fresh`
is declared `bool is_fresh = false;` — the embedding keeps that type and
models the integer arithmetic performed on it through the C++ bool/int
conversions. -/
structure VelocityCache where
  is_fresh : Bool := false
  speed : ℚ := -1
  direction : ℚ := -1
  climb : ℚ := -1
deriving DecidableEq

/-- The internal position record `GeoClue1Position`
(geoclue1_backend.h lines 16-25). -/
structure GeoClue1Position where
  latitude : GDouble
  longitude : GDouble
  altitude : GDouble
  accuracy : GDouble
  speed : ℚ
  heading : ℚ
  climb : ℚ
  timestamp_iso8601 : String
deriving DecidableEq

/-- The `GeoClue1Velocity` record handed to the (observation-only)
velocity callback (geoclue1_backend.h lines 27-32). -/
structure GeoClue1Velocity where
  speed : GDouble
  direction : GDouble
  climb : GDouble
  timestamp_iso8601 : String
deriving DecidableEq

/-- Payload of the v1 `PositionChanged` signal, signature
`(iiddd(idd))` = (fields bitmask, unix time, lat, lon, alt,
(accuracy level, horizontal accuracy, vertical accuracy)). -/
structure PositionPayload where
  fields : Int
  timestamp : Int
  latitude : GDouble
  longitude : GDouble
  altitude : GDouble
  accuracy_level : Int
  accuracy_h : GDouble
  accuracy_v : GDouble
deriving DecidableEq

/-- Payload of the v1 `VelocityChanged` signal, signature `(iiddd)` =
(fields bitmask, unix time, speed, direction, climb). -/
structure VelocityPayload where
  fields : Int
  timestamp : Int
  speed : GDouble
  direction : GDouble
  climb : GDouble
deriving DecidableEq

/-- `Geoclue1Backend::on_position_changed` (geoclue1_backend.cpp lines
108-157), restricted to its data flow: builds a `GeoClue1Position` from the
payload, merging the velocity cache when fresh, and returns the updated
cache.  Mirrors the source exactly:
* lat/lon/alt/horizontal-accuracy are copied from the payload
  unconditionally (the `fields` bitmask is parsed but never consulted);
* `if (backend->m_last_velocity.is_fresh > 0)` — with `is_fresh : bool`,
  this is just `is_fresh`;
* `backend->m_last_velocity.is_fresh -= 1` — bool-int-bool round trip. -/
def Geoclue1Backend.on_position_changed (p : PositionPayload) (v : VelocityCache) :
    GeoClue1Position × VelocityCache :=
  let base : GeoClue1Position :=
    { latitude := p.latitude
      longitude := p.longitude
      altitude := p.altitude
      accuracy := p.accuracy_h
      timestamp_iso8601 := toString p.timestamp
      speed := 0, heading := 0, climb := 0 }
  if v.is_fresh then
    ({ base with speed := v.speed, heading := v.direction, climb := v.climb },
     { v with is_fresh := intToBool (boolToInt v.is_fresh - 1) })
  else
    ({ base with speed := -1, heading := -1, climb := -1 }, v)

/-- `Geoclue1Backend::on_velocity_changed` (geoclue1_backend.cpp lines
159-193): sanitizes NaNs to `-1.0`, stores the velocity in the cache,
resets the freshness field by assigning `VELOCITY_FRESH_STEPS` to the
`bool` member, and builds the record for the observation callback. -/
def Geoclue1Backend.on_velocity_changed (p : VelocityPayload) (_v : VelocityCache) :
    VelocityCache × GeoClue1Velocity :=
  ({ speed := p.speed.sanitize
     direction := p.direction.sanitize
     climb := p.climb.sanitize
     is_fresh := intToBool (Int.ofNat VELOCITY_FRESH_STEPS) },
   { speed := p.speed, direction := p.direction, climb := p.climb
     timestamp_iso8601 := toString p.timestamp })

/-! ## Geoclue1Backend proxy state and start/stop protocol

Proxies are modelled by presence flags (Master, MasterClient) or by the
service/path identity they were created against (Provider, Position).
Signal subscriptions are presence flags for their nonzero subscription ids.
-/

/-- Mutable state of `Geoclue1Backend` (geoclue1_backend.h lines 54-95).
`connection` records whether the session-bus connection succeeded in the
constructor. -/
structure Geoclue1Backend where
  connection : Bool := true
  tracking : Bool := false
  master_proxy : Bool := false
  client_proxy : Bool := false
  provider_proxy : Option (String × String) := none
  position_proxy : Option (String × String) := none
  sub_provider_changed : Bool := false
  sub_position : Bool := false
  sub_velocity : Bool := false
  last_velocity : VelocityCache := {}
deriving DecidableEq

/-- A freshly constructed `Geoclue1Backend` whose session-bus connection
attempt had outcome `c` (geoclue1_backend.cpp lines 9-27): every other
member keeps its in-class initializer. -/
def Geoclue1Backend.fresh (c : Bool) : Geoclue1Backend := { connection := c }

/-- Outcomes of the fallible D-Bus calls performed during
`ensure_master_client` (geoclue1_backend.cpp lines 195-340).
`createPath` is the object path returned by `Master.Create()`. -/
structure StartEnv where
  masterOk : Bool := true
  createOk : Bool := true
  createPath : String := "/org/freedesktop/Geoclue/Master/client0"
  clientProxyOk : Bool := true
  clientGeoclueProxyOk : Bool := true
  addRefClientOk : Bool := true
  setReqOk : Bool := true
  posStartOk : Bool := true

/-- `Geoclue1Backend::ensure_master_client` (geoclue1_backend.cpp lines
195-340).  Returns the C++ return value together with the state.
The short-lived MasterClient-as-Geoclue proxy and its `AddReference` call
change no member and a failure there does not abort the start. -/
def Geoclue1Backend.ensure_master_client (env : StartEnv) (s : Geoclue1Backend) :
    Bool × Geoclue1Backend :=
  if s.master_proxy ∧ s.client_proxy then (true, s)
  else if ¬ s.connection then (false, s)
  else
    let s1 : Geoclue1Backend :=
      if s.master_proxy then s else { s with master_proxy := env.masterOk }
    if ¬ s1.master_proxy then (false, s1)
    else if ¬ env.createOk then (false, s1)
    else if env.createPath = "" then (false, s1)
    else
      let s2 : Geoclue1Backend := { s1 with sub_provider_changed := true }
      if ¬ env.clientProxyOk then (false, s2)
      else
        let s3 : Geoclue1Backend := { s2 with client_proxy := true }
        if ¬ env.setReqOk then (false, s3)
        else if ¬ env.posStartOk then (false, s3)
        else (true, s3)

/-- `Geoclue1Backend::start_tracking` (geoclue1_backend.cpp lines 45-61). -/
def Geoclue1Backend.start_tracking (env : StartEnv) (s : Geoclue1Backend) :
    Geoclue1Backend :=
  if s.tracking then s
  else
    let r := s.ensure_master_client env
    if r.1 then { r.2 with tracking := true } else r.2

/-- `Geoclue1Backend::destroy_master_client` (geoclue1_backend.cpp lines
342-424): drops the Position, Provider, MasterClient and Master proxies
(calling best-effort `RemoveReference` on the Provider and on the
MasterClient-as-Geoclue proxy, which leaves no trace in the member state)
and clears the tracking flag.  Signal-subscription ids are NOT touched. -/
def Geoclue1Backend.destroy_master_client (s : Geoclue1Backend) : Geoclue1Backend :=
  { s with position_proxy := none, provider_proxy := none,
           client_proxy := false, master_proxy := false, tracking := false }

/-- `Geoclue1Backend::unsubscribe_signals` (geoclue1_backend.cpp lines
89-106). -/
def Geoclue1Backend.unsubscribe_signals (s : Geoclue1Backend) : Geoclue1Backend :=
  { s with sub_position := false, sub_velocity := false, sub_provider_changed := false }

/-- `Geoclue1Backend::stop_tracking` (geoclue1_backend.cpp lines 63-80):
unsubscribes and clears the flag only when tracking, then always runs
`destroy_master_client`. -/
def Geoclue1Backend.stop_tracking (s : Geoclue1Backend) : Geoclue1Backend :=
  let s1 := if s.tracking then { s.unsubscribe_signals with tracking := false } else s
  s1.destroy_master_client

/-! ## Provider-change handler and the AddReference/RemoveReference trace -/

/-- A reference-count call issued on the session bus, identified by the
service and object path of the proxy it is invoked on. -/
inductive RefEvent where
  | removeRef (service path : String) : RefEvent
  | addRef (service path : String) : RefEvent
deriving DecidableEq

/-- Payload of the v1 `PositionProviderChanged` signal, signature `(ssss)`. -/
structure ProviderPayload where
  name : String
  desc : String
  service : String
  path : String
deriving DecidableEq

/-- Outcomes of the fallible proxy constructions inside
`on_position_provider_changed`. -/
structure ProviderEnv where
  providerProxyOk : Bool := true
  addRefOk : Bool := true
  positionProxyOk : Bool := true

/-- `Geoclue1Backend::on_position_provider_changed` (geoclue1_backend.cpp
lines 426-553).  Returns the new state together with the ordered list of
reference-count calls invoked (a call is "invoked" even when the remote
side reports failure; a failed call never changes local state).
Faithful order of operations:
1. empty service or path: ignore the event entirely;
2. drop any existing Position proxy;
3. if a Provider proxy exists, invoke `RemoveReference` on it, drop it;
4. create the new Provider proxy (on failure: return);
5. invoke `AddReference` on it (failure tolerated);
6. create the new Position proxy (on failure: return);
7. subscribe to `PositionChanged` and `VelocityChanged` of that
   service/path. -/
def Geoclue1Backend.on_position_provider_changed (env : ProviderEnv)
    (p : ProviderPayload) (s : Geoclue1Backend) :
    Geoclue1Backend × List RefEvent :=
  if p.service = "" ∨ p.path = "" then (s, [])
  else
    let s1 : Geoclue1Backend := { s with position_proxy := none }
    let dropOld : Geoclue1Backend × List RefEvent :=
      match s1.provider_proxy with
      | some old => ({ s1 with provider_proxy := none },
                     [RefEvent.removeRef old.1 old.2])
      | none => (s1, [])
    let s2 := dropOld.1
    let tr := dropOld.2
    if ¬ env.providerProxyOk then (s2, tr)
    else
      let s3 : Geoclue1Backend := { s2 with provider_proxy := some (p.service, p.path) }
      let tr2 := tr ++ [RefEvent.addRef p.service p.path]
      if ¬ env.positionProxyOk then (s3, tr2)
      else
        ({ s3 with position_proxy := some (p.service, p.path),
                   sub_position := true, sub_velocity := true }, tr2)

/-! ## GeoClue2 Client entity -/

/-- Per-client state of `GeoClue2Client` (geoclue2_client.h lines 54-60),
together with the bus peer it was created for (the creation argument of
`create_client_for_peer`; kept here so properties about a peer's clients
can be stated). -/
structure GeoClue2Client where
  peer : String := ""
  active : Bool := false
  location_path : String := "/"
deriving DecidableEq

/-- Externally visible effects of a Client method invocation, in order:
the Manager's active-changed callback and the D-Bus method completion. -/
inductive ClientEvent where
  | activeChanged (active : Bool) : ClientEvent
  | completeStart : ClientEvent
  | completeStop : ClientEvent
deriving DecidableEq

/-- `GeoClue2Client::set_active` (geoclue2_client.cpp lines 69-86): no-op
when the flag already has the requested value, otherwise flips it and
invokes the active-changed callback once. -/
def GeoClue2Client.set_active (b : Bool) (c : GeoClue2Client) :
    GeoClue2Client × List ClientEvent :=
  if c.active = b then (c, [])
  else ({ c with active := b }, [ClientEvent.activeChanged b])

/-- `GeoClue2Client::on_handle_start` (geoclue2_client.cpp lines 107-132). -/
def GeoClue2Client.on_handle_start (c : GeoClue2Client) :
    GeoClue2Client × List ClientEvent :=
  if c.active then (c, [ClientEvent.completeStart])
  else
    let r := c.set_active true
    (r.1, r.2 ++ [ClientEvent.completeStart])

/-- `GeoClue2Client::on_handle_stop` (geoclue2_client.cpp lines 134-159). -/
def GeoClue2Client.on_handle_stop (c : GeoClue2Client) :
    GeoClue2Client × List ClientEvent :=
  if ¬ c.active then (c, [ClientEvent.completeStop])
  else
    let r := c.set_active false
    (r.1, r.2 ++ [ClientEvent.completeStop])

/-- `GeoClue2Client::notify_location_update` (geoclue2_client.cpp lines
88-105): dropped for inactive clients, otherwise stores the new location
path (and emits `LocationUpdated`, which does not change client state). -/
def GeoClue2Client.notify_location_update (new_location_path : String)
    (c : GeoClue2Client) : GeoClue2Client :=
  if ¬ c.active then c
  else { c with location_path := new_location_path }

/-! ## Decimal rendering of counters

Client and Location object paths are minted by appending
`std::to_string(id)` to a fixed prefix.  To reason about path distinctness
we prove that `Nat.repr` (Lean's decimal rendering, the analogue of
`std::to_string` on unsigned values) is injective. -/

/-- Fuel-free decimal digit list of `n`, most significant digit first;
equal to `Nat.toDigits 10 n` (proved below). -/
def decDigits (n : Nat) : List Char :=
  if h : n / 10 = 0 then [Nat.digitChar (n % 10)]
  else decDigits (n / 10) ++ [Nat.digitChar (n % 10)]
decreasing_by
  exact Nat.div_lt_self (Nat.pos_of_ne_zero (fun h0 => h (by simp [h0]))) (by omega)

theorem toDigitsCore_eq_decDigits (fuel n : Nat) (acc : List Char) (h : n < fuel) :
    Nat.toDigitsCore 10 fuel n acc = decDigits n ++ acc := by
  induction fuel generalizing n acc with
  | zero => omega
  | succ f ih =>
    rw [Nat.toDigitsCore]
    by_cases h10 : n / 10 = 0
    · simp only [h10, if_pos]
      rw [decDigits]
      simp [h10]
    · simp only [h10, if_neg, if_false]
      have hpos : 0 < n := Nat.pos_of_ne_zero (fun h0 => h10 (by simp [h0]))
      have hlt : n / 10 < f := by
        have : n / 10 < n := Nat.div_lt_self hpos (by omega)
        omega
      rw [ih (n / 10) _ hlt]
      conv_rhs => rw [decDigits]
      simp [h10, List.append_assoc]

theorem toDigits_eq_decDigits (n : Nat) :
    Nat.toDigits 10 n = decDigits n := by
  have := toDigitsCore_eq_decDigits (n + 1) n [] (by omega)
  simpa [Nat.toDigits] using this

/-- Numeric value of a digit list (inverse of `decDigits`). -/
def digitsVal (l : List Char) : Nat :=
  l.foldl (fun a c => a * 10 + (c.toNat - 48)) 0

theorem digitChar_toNat (n : Nat) (h : n < 10) : (Nat.digitChar n).toNat = 48 + n := by
  interval_cases n <;> decide

theorem decDigits_val (n : Nat) : digitsVal (decDigits n) = n := by
  induction n using Nat.strong_induction_on with
  | _ n ih =>
    rw [decDigits]
    by_cases h10 : n / 10 = 0
    · have hn : n < 10 := by omega
      simp only [h10, dif_pos]
      simp only [digitsVal, List.foldl]
      rw [Nat.mod_eq_of_lt hn, digitChar_toNat n hn]
      omega
    · have hpos : 0 < n := Nat.pos_of_ne_zero (fun h0 => h10 (by simp [h0]))
      have hlt : n / 10 < n := Nat.div_lt_self hpos (by omega)
      simp only [h10, dif_neg, not_false_iff]
      have hv := ih (n / 10) hlt
      simp only [digitsVal, List.foldl_append] at hv ⊢
      rw [hv, List.foldl]
      rw [digitChar_toNat (n % 10) (Nat.mod_lt _ (by omega))]
      simp only [List.foldl]
      omega

theorem decDigits_injective : Function.Injective decDigits := by
  intro m n h
  have := congrArg digitsVal h
  simpa [decDigits_val] using this

theorem natRepr_injective : Function.Injective Nat.repr := by
  intro m n h
  have hd : Nat.toDigits 10 m = Nat.toDigits 10 n := by
    have := congrArg String.data h
    simpa [Nat.repr, List.asString] using this
  rw [toDigits_eq_decDigits, toDigits_eq_decDigits] at hd
  exact decDigits_injective hd

/-- Concatenating a fixed prefix keeps decimal renderings distinct. -/
theorem append_repr_injective (pre : String) :
    Function.Injective (fun n : Nat => pre ++ Nat.repr n) := by
  intro m n h
  apply natRepr_injective
  have hdata := congrArg String.data h
  simp only [String.data_append] at hdata
  have := List.append_cancel_left hdata
  exact String.ext this

/-! ## Association-list model of std::unordered_map

Both Manager registries are `std::unordered_map<std::string, ...>`.
They are modelled as association lists with unique keys; `mapSet` is
`operator[]` assignment (overwrite or append), `mapErase` is `erase`,
`mapFind` is `find`.  Iteration order of the underlying container is
irrelevant to every property proved here. -/

def mapFind {β : Type} (l : List (String × β)) (k : String) : Option β :=
  (l.find? (fun e => e.1 == k)).map (fun e => e.2)

def mapContains {β : Type} (l : List (String × β)) (k : String) : Bool :=
  l.any (fun e => e.1 == k)

def mapSet {β : Type} (l : List (String × β)) (k : String) (v : β) :
    List (String × β) :=
  if mapContains l k then l.map (fun e => if e.1 = k then (k, v) else e)
  else l ++ [(k, v)]

def mapErase {β : Type} (l : List (String × β)) (k : String) : List (String × β) :=
  l.filter (fun e => ! (e.1 == k))

/-- The keys of an association list, in order. -/
def mapKeys {β : Type} (l : List (String × β)) : List String := l.map (fun e => e.1)

/-- Erase the first entry whose VALUE is `v` (the `for`/`break` loop of
`GeoClue2Manager::remove_client`, geoclue2_manager.cpp lines 222-227). -/
def eraseFirstVal (l : List (String × String)) (v : String) :
    List (String × String) :=
  match l with
  | [] => []
  | e :: tl => if e.2 == v then tl else e :: eraseFirstVal tl v

/-! ### Association-list lemmas -/

theorem mapFind_cons {β : Type} (e : String × β) (l : List (String × β)) (k : String) :
    mapFind (e :: l) k = if e.1 = k then some e.2 else mapFind l k := by
  by_cases h : e.1 = k
  · have hb : (e.1 == k) = true := by simp [h]
    simp [mapFind, List.find?_cons, hb, h]
  · have hb : (e.1 == k) = false := by simp [h]
    simp [mapFind, List.find?_cons, hb, h]

theorem mapContains_eq_isSome {β : Type} (l : List (String × β)) (k : String) :
    mapContains l k = (mapFind l k).isSome := by
  induction l with
  | nil => rfl
  | cons e tl ih =>
    rw [mapFind_cons]
    by_cases h : e.1 = k
    · simp [mapContains, h]
    · simp only [mapContains, List.any_cons] at ih ⊢
      simp [h, ih]

theorem mapContains_false_iff {β : Type} (l : List (String × β)) (k : String) :
    mapContains l k = false ↔ ∀ e ∈ l, ¬ e.1 = k := by
  simp [mapContains]

theorem mapFind_mem {β : Type} {l : List (String × β)} {k : String} {v : β}
    (h : mapFind l k = some v) : (k, v) ∈ l := by
  induction l with
  | nil => simp [mapFind] at h
  | cons e tl ih =>
    rw [mapFind_cons] at h
    by_cases he : e.1 = k
    · obtain ⟨e1, e2⟩ := e
      simp only at he
      subst he
      rw [if_pos rfl] at h
      injection h with h2
      subst h2
      exact List.mem_cons_self _ _
    · simp only [he, if_neg, if_false] at h
      exact List.mem_cons_of_mem _ (ih h)

theorem mapFind_of_mem {β : Type} {l : List (String × β)} {e : String × β}
    (hnd : (l.map (fun x => x.1)).Nodup) (h : e ∈ l) : mapFind l e.1 = some e.2 := by
  induction l with
  | nil => simp at h
  | cons a tl ih =>
    simp only [List.map_cons, List.nodup_cons] at hnd
    rw [mapFind_cons]
    rw [List.mem_cons] at h
    rcases h with h | h
    · simp [h]
    · have hne : ¬ a.1 = e.1 := by
        intro hEq
        exact hnd.1 (hEq ▸ List.mem_map_of_mem (fun x => x.1) h)
      simp only [hne, if_neg, if_false]
      exact ih hnd.2 h

theorem overwrite_of_not_contains {β : Type} {l : List (String × β)} {k : String}
    (v : β) (h : mapContains l k = false) :
    l.map (fun e => if e.1 = k then (k, v) else e) = l := by
  rw [mapContains_false_iff] at h
  induction l with
  | nil => rfl
  | cons e tl ih =>
    have h1 : ¬ e.1 = k := h e (List.mem_cons_self e tl)
    simp only [List.map_cons, if_neg h1]
    rw [ih (fun x hx => h x (List.mem_cons_of_mem _ hx))]

theorem mapErase_of_not_contains {β : Type} {l : List (String × β)} {k : String}
    (h : mapContains l k = false) : mapErase l k = l := by
  rw [mapContains_false_iff] at h
  induction l with
  | nil => rfl
  | cons e tl ih =>
    have h1 : ¬ e.1 = k := h e (List.mem_cons_self e tl)
    have hb : (! (e.1 == k)) = true := by simp [h1]
    simp only [mapErase, List.filter_cons, hb, if_pos]
    rw [show List.filter (fun e => ! (e.1 == k)) tl = mapErase tl k from rfl,
      ih (fun x hx => h x (List.mem_cons_of_mem _ hx))]

theorem mapSet_of_find_none {β : Type} {l : List (String × β)} {k : String} (v : β)
    (h : mapFind l k = none) : mapSet l k v = l ++ [(k, v)] := by
  have hc : mapContains l k = false := by
    rw [mapContains_eq_isSome, h, Option.isSome_none]
  simp [mapSet, hc]

theorem mapFind_append_left {β : Type} {l : List (String × β)} {k : String} {v : β}
    (l2 : List (String × β)) (h : mapFind l k = some v) :
    mapFind (l ++ l2) k = some v := by
  induction l with
  | nil => simp [mapFind] at h
  | cons e tl ih =>
    rw [List.cons_append, mapFind_cons] at *
    by_cases he : e.1 = k
    · simpa [he] using h
    · simp only [he, if_neg, if_false] at h ⊢
      exact ih h

theorem mapFind_append_none {β : Type} {l : List (String × β)} {k k' : String} (v : β)
    (h : mapFind l k' = none) :
    mapFind (l ++ [(k, v)]) k' = if k' = k then some v else none := by
  induction l with
  | nil =>
    rw [List.nil_append, mapFind_cons]
    by_cases he : k = k'
    · simp [he]
    · have he2 : ¬ k' = k := fun hh => he hh.symm
      simp [he, he2, mapFind]
  | cons e tl ih =>
    rw [mapFind_cons] at h
    rw [List.cons_append, mapFind_cons]
    by_cases he : e.1 = k'
    · simp [he] at h
    · simp only [he, if_neg, if_false] at h ⊢
      exact ih h

theorem mapFind_none_of_contains_false {β : Type} {l : List (String × β)} {k : String}
    (h : mapContains l k = false) : mapFind l k = none := by
  have hi := mapContains_eq_isSome l k
  rw [h] at hi
  cases hfind : mapFind l k with
  | none => rfl
  | some w => rw [hfind] at hi; simp at hi

theorem mapFind_overwrite {β : Type} (l : List (String × β)) (k k' : String) (v : β)
    (hc : mapContains l k = true) :
    mapFind (l.map (fun e => if e.1 = k then (k, v) else e)) k' =
      if k' = k then some v else mapFind l k' := by
  induction l with
  | nil => simp [mapContains] at hc
  | cons e tl ih =>
    by_cases hek : e.1 = k
    · simp only [List.map_cons, if_pos hek]
      rw [mapFind_cons, mapFind_cons]
      by_cases hkk : k' = k
      · have hk2 : k = k' := hkk.symm
        simp [hk2]
      · have hk2 : ¬ k = k' := fun hh => hkk hh.symm
        have he2 : ¬ e.1 = k' := by rw [hek]; exact hk2
        rw [if_neg hk2, if_neg hkk, if_neg he2]
        by_cases hct : mapContains tl k
        · rw [ih hct, if_neg hkk]
        · have hctf : mapContains tl k = false := by simpa using hct
          rw [overwrite_of_not_contains v hctf]
    · have hct : mapContains tl k = true := by
        simp only [mapContains, List.any_cons, Bool.or_eq_true] at hc
        rcases hc with h1 | h2
        · exact absurd (by simpa using h1) hek
        · exact h2
      simp only [List.map_cons, if_neg hek]
      rw [mapFind_cons, mapFind_cons, ih hct]
      by_cases hkk : k' = k
      · simp [hkk, hek]
      · simp [hkk]

theorem mapFind_mapSet {β : Type} (l : List (String × β)) (k k' : String) (v : β) :
    mapFind (mapSet l k v) k' = if k' = k then some v else mapFind l k' := by
  by_cases hc : mapContains l k
  · rw [mapSet, if_pos hc]
    exact mapFind_overwrite l k k' v hc
  · have hcf : mapContains l k = false := by simpa using hc
    have hn : mapFind l k = none := mapFind_none_of_contains_false hcf
    rw [mapSet, if_neg hc]
    by_cases hkk : k' = k
    · subst hkk
      rw [mapFind_append_none v hn]
      simp
    · cases hfind : mapFind l k' with
      | none =>
        rw [mapFind_append_none v hfind]
      | some w =>
        rw [mapFind_append_left _ hfind]
        simp [hkk]

theorem mapFind_mapErase {β : Type} (l : List (String × β)) (k k' : String) :
    mapFind (mapErase l k) k' = if k' = k then none else mapFind l k' := by
  induction l with
  | nil => by_cases h : k' = k <;> simp [mapErase, mapFind, h]
  | cons e tl ih =>
    simp only [mapErase, List.filter_cons] at ih ⊢
    by_cases hek : e.1 = k
    · rw [if_neg (show ¬ ((! (e.1 == k)) = true) by simp [hek]), ih]
      by_cases hkk : k' = k
      · simp [hkk]
      · have he2 : ¬ e.1 = k' := by rw [hek]; exact fun hh => hkk hh.symm
        simp [hkk, mapFind_cons, he2]
    · rw [if_pos (show (! (e.1 == k)) = true by simp [hek])]
      rw [mapFind_cons, ih, mapFind_cons]
      by_cases hkk : k' = k
      · simp [hkk, hek]
      · simp [hkk]

theorem mapFind_mapValues {β γ : Type} (l : List (String × β)) (f : β → γ) (k : String) :
    mapFind (l.map (fun e => (e.1, f e.2))) k = (mapFind l k).map f := by
  induction l with
  | nil => rfl
  | cons e tl ih =>
    simp only [List.map_cons]
    rw [mapFind_cons, mapFind_cons]
    by_cases h : e.1 = k
    · simp [h]
    · simp [h, ih]

theorem mapKeys_mapSet {β : Type} (l : List (String × β)) (k : String) (v : β) :
    mapKeys (mapSet l k v) =
      if mapContains l k then mapKeys l else mapKeys l ++ [k] := by
  by_cases hc : mapContains l k
  · rw [mapSet, if_pos hc, if_pos hc]
    simp only [mapKeys, List.map_map]
    congr 1
    funext e
    by_cases h : e.1 = k <;> simp [h]
  · rw [mapSet, if_neg hc, if_neg hc]
    simp [mapKeys]

theorem keysNodup_mapSet {β : Type} {l : List (String × β)} {k : String} (v : β)
    (h : (mapKeys l).Nodup) : (mapKeys (mapSet l k v)).Nodup := by
  by_cases hc : mapContains l k
  · rw [mapKeys_mapSet, if_pos hc]
    exact h
  · have hcf : mapContains l k = false := by simpa using hc
    rw [mapKeys_mapSet, if_neg hc, List.nodup_append]
    refine ⟨h, List.nodup_singleton k, ?_⟩
    intro a ha hb
    rw [List.mem_singleton] at hb
    subst hb
    rw [mapContains_false_iff] at hcf
    simp only [mapKeys, List.mem_map] at ha
    obtain ⟨e, he, hek⟩ := ha
    exact hcf e he hek

theorem keysNodup_mapErase {β : Type} {l : List (String × β)} (k : String)
    (h : (mapKeys l).Nodup) : (mapKeys (mapErase l k)).Nodup := by
  have hsub : List.Sublist (mapKeys (mapErase l k)) (mapKeys l) := by
    simp only [mapKeys, mapErase]
    exact (List.filter_sublist l).map (fun e => e.1)
  exact h.sublist hsub

theorem mem_mapSet {β : Type} {l : List (String × β)} {k : String} {v : β}
    {pr : String × β} (h : pr ∈ mapSet l k v) :
    pr = (k, v) ∨ (pr ∈ l ∧ pr.1 ≠ k) := by
  by_cases hc : mapContains l k
  · rw [mapSet, if_pos hc] at h
    rw [List.mem_map] at h
    obtain ⟨e, he, heq⟩ := h
    by_cases hek : e.1 = k
    · left
      rw [if_pos hek] at heq
      exact heq.symm
    · right
      rw [if_neg hek] at heq
      exact ⟨heq ▸ he, heq ▸ hek⟩
  · have hcf : mapContains l k = false := by simpa using hc
    rw [mapSet, if_neg hc, List.mem_append, List.mem_singleton] at h
    rw [mapContains_false_iff] at hcf
    rcases h with h | h
    · exact Or.inr ⟨h, hcf pr h⟩
    · exact Or.inl h

theorem mem_mapErase {β : Type} {l : List (String × β)} {k : String}
    {pr : String × β} (h : pr ∈ mapErase l k) : pr ∈ l :=
  List.mem_of_mem_filter h

theorem mem_eraseFirstVal {l : List (String × String)} {v : String}
    {pr : String × String} (h : pr ∈ eraseFirstVal l v) : pr ∈ l := by
  induction l with
  | nil => simp [eraseFirstVal] at h
  | cons e tl ih =>
    simp only [eraseFirstVal] at h
    by_cases hev : e.2 = v
    · simp only [beq_iff_eq, hev, if_pos] at h
      exact List.mem_cons_of_mem _ h
    · simp only [beq_iff_eq, hev, if_neg, if_false, List.mem_cons] at h
      rcases h with h | h
      · exact h ▸ List.mem_cons_self e tl
      · exact List.mem_cons_of_mem _ (ih h)

theorem keys_eraseFirstVal_sublist (l : List (String × String)) (v : String) :
    List.Sublist (mapKeys (eraseFirstVal l v)) (mapKeys l) := by
  induction l with
  | nil => exact List.Sublist.refl _
  | cons e tl ih =>
    by_cases hev : e.2 = v
    · have hrw : eraseFirstVal (e :: tl) v = tl := by simp [eraseFirstVal, hev]
      rw [hrw]
      simp only [mapKeys, List.map_cons]
      exact List.sublist_cons_self _ _
    · have hrw : eraseFirstVal (e :: tl) v = e :: eraseFirstVal tl v := by
        simp [eraseFirstVal, hev]
      rw [hrw]
      simp only [mapKeys, List.map_cons]
      exact List.Sublist.cons₂ _ (by simpa [mapKeys] using ih)

theorem eraseFirstVal_not_value {l : List (String × String)} {v : String}
    (hnd : (mapKeys l).Nodup)
    (huniq : ∀ p1 p2, (p1, v) ∈ l → (p2, v) ∈ l → p1 = p2) :
    ∀ pr ∈ eraseFirstVal l v, pr.2 ≠ v := by
  induction l with
  | nil => simp [eraseFirstVal]
  | cons e tl ih =>
    simp only [mapKeys, List.map_cons, List.nodup_cons] at hnd
    intro pr hpr
    simp only [eraseFirstVal] at hpr
    by_cases hev : e.2 = v
    · simp only [beq_iff_eq, hev, if_pos] at hpr
      intro hprv
      have h1 : (pr.1, v) ∈ e :: tl :=
        List.mem_cons_of_mem _ (by rw [← hprv]; exact hpr)
      have h2 : (e.1, v) ∈ e :: tl := by
        rw [← hev]
        exact List.mem_cons_self e tl
      have := huniq pr.1 e.1 h1 h2
      apply hnd.1
      rw [← this]
      exact List.mem_map_of_mem (fun x => x.1) hpr
    · simp only [beq_iff_eq, hev, if_neg, if_false, List.mem_cons] at hpr
      rcases hpr with hpr | hpr
      · rw [hpr]; exact hev
      · exact ih hnd.2
          (fun p1 p2 h1 h2 =>
            huniq p1 p2 (List.mem_cons_of_mem _ h1) (List.mem_cons_of_mem _ h2))
          pr hpr

/-! ### Counting active clients -/

/-- The number of registered clients whose `Active` flag is true. -/
def countActive (l : List (String × GeoClue2Client)) : Nat :=
  (l.filter (fun e => e.2.active)).length

theorem countActive_nil : countActive [] = 0 := rfl

theorem countActive_cons (e : String × GeoClue2Client) (l : List (String × GeoClue2Client)) :
    countActive (e :: l) = (if e.2.active then 1 else 0) + countActive l := by
  simp only [countActive, List.filter_cons]
  cases h : e.2.active <;> simp [h, Nat.add_comm]

theorem countActive_append_single (l : List (String × GeoClue2Client)) (k : String)
    (c : GeoClue2Client) :
    countActive (l ++ [(k, c)]) = countActive l + (if c.active then 1 else 0) := by
  simp only [countActive, List.filter_append, List.length_append]
  cases h : c.active <;> simp [List.filter_cons, h]

theorem countActive_overwrite {l : List (String × GeoClue2Client)} {k : String}
    {c : GeoClue2Client} (c' : GeoClue2Client)
    (hnd : (mapKeys l).Nodup) (hfind : mapFind l k = some c) :
    countActive (l.map (fun e => if e.1 = k then (k, c') else e)) +
      (if c.active then 1 else 0) =
    countActive l + (if c'.active then 1 else 0) := by
  induction l with
  | nil => simp [mapFind] at hfind
  | cons e tl ih =>
    simp only [mapKeys, List.map_cons, List.nodup_cons] at hnd
    rw [mapFind_cons] at hfind
    by_cases hek : e.1 = k
    · rw [if_pos hek] at hfind
      injection hfind with hc
      have hctf : mapContains tl k = false := by
        rw [mapContains_false_iff]
        intro x hx hxk
        exact hnd.1 (hek ▸ hxk ▸ List.mem_map_of_mem (fun e => e.1) hx)
      rw [List.map_cons, if_pos hek, overwrite_of_not_contains c' hctf,
        countActive_cons, countActive_cons, hc]
      cases hca : c.active <;> cases hcb : c'.active <;> simp [hca, hcb] <;> omega
    · rw [if_neg hek] at hfind
      rw [List.map_cons, if_neg hek, countActive_cons, countActive_cons]
      have := ih hnd.2 hfind
      omega

theorem countActive_mapSet {l : List (String × GeoClue2Client)} {k : String}
    {c : GeoClue2Client} (c' : GeoClue2Client)
    (hnd : (mapKeys l).Nodup) (hfind : mapFind l k = some c) :
    countActive (mapSet l k c') + (if c.active then 1 else 0) =
      countActive l + (if c'.active then 1 else 0) := by
  have hc : mapContains l k = true := by
    rw [mapContains_eq_isSome, hfind]
    rfl
  rw [mapSet, if_pos hc]
  exact countActive_overwrite c' hnd hfind

theorem countActive_mapErase {l : List (String × GeoClue2Client)} {k : String}
    {c : GeoClue2Client} (hnd : (mapKeys l).Nodup) (hfind : mapFind l k = some c) :
    countActive (mapErase l k) + (if c.active then 1 else 0) = countActive l := by
  induction l with
  | nil => simp [mapFind] at hfind
  | cons e tl ih =>
    simp only [mapKeys, List.map_cons, List.nodup_cons] at hnd
    rw [mapFind_cons] at hfind
    by_cases hek : e.1 = k
    · rw [if_pos hek] at hfind
      injection hfind with hc
      have hctf : mapContains tl k = false := by
        rw [mapContains_false_iff]
        intro x hx hxk
        exact hnd.1 (hek ▸ hxk ▸ List.mem_map_of_mem (fun e => e.1) hx)
      simp only [mapErase, List.filter_cons,
        if_neg (show ¬ ((! (e.1 == k)) = true) by simp [hek])]
      rw [show List.filter (fun e => ! (e.1 == k)) tl = mapErase tl k from rfl,
        mapErase_of_not_contains hctf, countActive_cons, hc]
      omega
    · rw [if_neg hek] at hfind
      simp only [mapErase, List.filter_cons,
        if_pos (show (! (e.1 == k)) = true by simp [hek])]
      rw [show List.filter (fun e => ! (e.1 == k)) tl = mapErase tl k from rfl,
        countActive_cons, countActive_cons]
      have := ih hnd.2 hfind
      omega

theorem countActive_pos {l : List (String × GeoClue2Client)} {k : String}
    {c : GeoClue2Client} (hnd : (mapKeys l).Nodup) (hfind : mapFind l k = some c)
    (hact : c.active = true) : 1 ≤ countActive l := by
  have := countActive_mapErase hnd hfind
  rw [hact, if_pos rfl] at this
  omega

theorem countActive_mapValues (l : List (String × GeoClue2Client))
    (f : GeoClue2Client → GeoClue2Client) (hf : ∀ c, (f c).active = c.active) :
    countActive (l.map (fun e => (e.1, f e.2))) = countActive l := by
  induction l with
  | nil => rfl
  | cons e tl ih =>
    simp only [List.map_cons]
    rw [countActive_cons, countActive_cons, ih]
    simp [hf]

/-! ## GeoClue2 Manager -/

/-- `const size_t MAX_STORED_LOCATIONS = 25;` (geoclue2_manager.cpp line 9). -/
def MAX_STORED_LOCATIONS : Nat := 25

/-- Client object path `"/org/freedesktop/GeoClue2/Client/" +
std::to_string(id)` (geoclue2_manager.cpp lines 181-182). -/
def clientPath (id : Nat) : String :=
  "/org/freedesktop/GeoClue2/Client/" ++ Nat.repr id

/-- Location object path `"/org/freedesktop/GeoClue2/Location/" +
std::to_string(id)` (geoclue2_manager.cpp lines 138-139). -/
def locationPath (id : Nat) : String :=
  "/org/freedesktop/GeoClue2/Location/" ++ Nat.repr id

theorem clientPath_injective : Function.Injective clientPath :=
  append_repr_injective _

/-- Mutable state of `GeoClue2Manager` (geoclue2_manager.h lines 53-73):
the two client registries, the monotonic client/location counters, the
recent-location deque (kept as the list of minted location ids, oldest
first), the active-client count, the exported `InUse` property, the grace
duration and the pending grace-timer handle (carrying the duration it was
armed with). -/
structure GeoClue2Manager where
  clients_by_peer : List (String × String) := []
  clients_by_path : List (String × GeoClue2Client) := []
  next_client_id : Nat := 0
  next_location_id : Nat := 0
  locations : List Nat := []
  active_clients : Nat := 0
  in_use : Bool := false
  grace_timeout_ms : Nat := 15000
  grace_timer : Option Nat := none
deriving DecidableEq

/-- `GeoClue2Manager::update_in_use_property` (geoclue2_manager.cpp lines
233-238). -/
def GeoClue2Manager.update_in_use_property (s : GeoClue2Manager) : GeoClue2Manager :=
  { s with in_use := decide (0 < s.active_clients) }

/-- `GeoClue2Manager::client_became_active` (geoclue2_manager.cpp lines
90-108): cancel any pending grace timer, increment the count, update
`InUse` (the 0→1 transition additionally starts the backend, which owns no
Manager state). -/
def GeoClue2Manager.client_became_active (s : GeoClue2Manager) : GeoClue2Manager :=
  let s1 : GeoClue2Manager := { s with grace_timer := none }
  let s2 : GeoClue2Manager := { s1 with active_clients := s1.active_clients + 1 }
  s2.update_in_use_property

/-- `GeoClue2Manager::client_became_inactive` (geoclue2_manager.cpp lines
110-134): a call at count 0 is logged and suppressed; otherwise decrement,
update `InUse`, and on reaching 0 arm the grace timer with
`m_grace_timeout_ms`. -/
def GeoClue2Manager.client_became_inactive (s : GeoClue2Manager) : GeoClue2Manager :=
  if s.active_clients = 0 then s
  else
    let s1 : GeoClue2Manager := { s with active_clients := s.active_clients - 1 }
    let s2 := s1.update_in_use_property
    if s2.active_clients = 0 then { s2 with grace_timer := some s2.grace_timeout_ms }
    else s2

/-- Replay the active-changed callbacks produced by a Client method
(the lambda installed in `create_client_for_peer`, geoclue2_manager.cpp
lines 187-193). -/
def GeoClue2Manager.apply_client_events (evs : List ClientEvent)
    (s : GeoClue2Manager) : GeoClue2Manager :=
  evs.foldl (fun s e =>
    match e with
    | ClientEvent.activeChanged true => s.client_became_active
    | ClientEvent.activeChanged false => s.client_became_inactive
    | _ => s) s

/-- A `Start()` invocation reaching the client exported at `path`
(`GeoClue2Client::on_handle_start` plus the Manager callback). -/
def GeoClue2Manager.handle_start (path : String) (s : GeoClue2Manager) :
    GeoClue2Manager :=
  match mapFind s.clients_by_path path with
  | none => s
  | some c =>
    let r := c.on_handle_start
    let s1 : GeoClue2Manager :=
      { s with clients_by_path := mapSet s.clients_by_path path r.1 }
    s1.apply_client_events r.2

/-- A `Stop()` invocation reaching the client exported at `path`. -/
def GeoClue2Manager.handle_stop (path : String) (s : GeoClue2Manager) :
    GeoClue2Manager :=
  match mapFind s.clients_by_path path with
  | none => s
  | some c =>
    let r := c.on_handle_stop
    let s1 : GeoClue2Manager :=
      { s with clients_by_path := mapSet s.clients_by_path path r.1 }
    s1.apply_client_events r.2

/-- `GeoClue2Manager::create_client_for_peer` (geoclue2_manager.cpp lines
169-207): with `reuse` and an existing entry for `peer`, return it;
otherwise mint a new client under the next id and register it in BOTH maps
(`m_clients_by_peer[peer] = client` overwrites any previous entry for that
peer).  Returns the path of the returned client. -/
def GeoClue2Manager.create_client_for_peer (peer : String) (reuse : Bool)
    (s : GeoClue2Manager) : String × GeoClue2Manager :=
  match if reuse then mapFind s.clients_by_peer peer else none with
  | some path => (path, s)
  | none =>
    let id := s.next_client_id + 1
    let path := clientPath id
    let c : GeoClue2Client := { peer := peer }
    (path,
     { s with next_client_id := id,
              clients_by_peer := mapSet s.clients_by_peer peer path,
              clients_by_path := mapSet s.clients_by_path path c })

/-- `GeoClue2Manager::remove_client` (geoclue2_manager.cpp lines 209-231)
followed by the destruction of the last shared reference to the client
(`GeoClue2Client::~GeoClue2Client`, geoclue2_client.cpp lines 50-67, which
deactivates a still-active client through the Manager callback): unknown
paths are logged and skipped; otherwise the client is dropped from the
path map and the first peer-map entry referencing it, `InUse` is
recomputed, and an active client finally decrements the count. -/
def GeoClue2Manager.remove_client (path : String) (s : GeoClue2Manager) :
    GeoClue2Manager :=
  match mapFind s.clients_by_path path with
  | none => s
  | some c =>
    let s1 : GeoClue2Manager :=
      { s with clients_by_path := mapErase s.clients_by_path path,
               clients_by_peer := eraseFirstVal s.clients_by_peer path }
    let s2 := s1.update_in_use_property
    if c.active then s2.client_became_inactive else s2

/-- `GeoClue2Manager::on_peer_vanished` (geoclue2_manager.cpp lines
329-350): collect the paths of all clients registered under the vanished
peer, then remove them one by one. -/
def GeoClue2Manager.on_peer_vanished (name : String) (s : GeoClue2Manager) :
    GeoClue2Manager :=
  let paths := (s.clients_by_peer.filter (fun e => e.1 == name)).map (fun e => e.2)
  paths.foldl (fun s p => s.remove_client p) s

/-- The `while (m_locations.size() > MAX_STORED_LOCATIONS)
m_locations.pop_front();` loop (geoclue2_manager.cpp lines 164-166). -/
def trimLocations (l : List Nat) : List Nat :=
  match l with
  | [] => []
  | x :: tl =>
    if (x :: tl).length > MAX_STORED_LOCATIONS then trimLocations tl else x :: tl

/-- `GeoClue2Manager::handle_position_update` (geoclue2_manager.cpp lines
136-167): mint the next location id, append it to the deque, notify every
active client of the new location path, then evict from the front while
over the bound. -/
def GeoClue2Manager.handle_position_update (s : GeoClue2Manager) : GeoClue2Manager :=
  let id := s.next_location_id + 1
  let path := locationPath id
  let s1 : GeoClue2Manager :=
    { s with next_location_id := id,
             locations := s.locations ++ [id],
             clients_by_path := s.clients_by_path.map
               (fun e => (e.1, e.2.notify_location_update path)) }
  { s1 with locations := trimLocations s1.locations }

/-- `GeoClue2Manager::on_grace_timeout` (geoclue2_manager.cpp lines
352-370): clears the timer handle unconditionally (stopping the backend
owns no Manager state); only an armed timer can fire. -/
def GeoClue2Manager.on_grace_timeout (s : GeoClue2Manager) : GeoClue2Manager :=
  match s.grace_timer with
  | none => s
  | some _ => { s with grace_timer := none }

/-- The operations that mutate Manager state from the event loop. -/
inductive ManagerOp where
  | getClient (peer : String) : ManagerOp
  | createClient (peer : String) : ManagerOp
  | deleteClient (path : String) : ManagerOp
  | peerVanished (peer : String) : ManagerOp
  | startClient (path : String) : ManagerOp
  | stopClient (path : String) : ManagerOp
  | positionUpdate : ManagerOp
  | graceTimeout : ManagerOp

/-- Dispatch of one event-loop callback into the Manager
(`on_handle_get_client`, `on_handle_create_client`,
`on_handle_delete_client`, `on_peer_vanished`, the Client `Start`/`Stop`
handlers, `handle_position_update` and `on_grace_timeout`). -/
def GeoClue2Manager.applyOp (o : ManagerOp) (s : GeoClue2Manager) : GeoClue2Manager :=
  match o with
  | ManagerOp.getClient peer => (s.create_client_for_peer peer true).2
  | ManagerOp.createClient peer => (s.create_client_for_peer peer false).2
  | ManagerOp.deleteClient path => s.remove_client path
  | ManagerOp.peerVanished peer => s.on_peer_vanished peer
  | ManagerOp.startClient path => s.handle_start path
  | ManagerOp.stopClient path => s.handle_stop path
  | ManagerOp.positionUpdate => s.handle_position_update
  | ManagerOp.graceTimeout => s.on_grace_timeout

/-- States of the Manager reachable from construction
(geoclue2_manager.cpp lines 22-56: all counters zero, maps empty,
`InUse = FALSE`) by any sequence of event-loop callbacks. -/
inductive GeoClue2Manager.Reachable : GeoClue2Manager → Prop where
  | init : GeoClue2Manager.Reachable {}
  | step (o : ManagerOp) {s : GeoClue2Manager} :
      GeoClue2Manager.Reachable s → GeoClue2Manager.Reachable (s.applyOp o)



/-! ## The Manager invariant -/

/-- Overwriting a key with the value it already holds leaves the map
unchanged (used for `Start()` on an already-active client). -/
theorem mapSet_self {β : Type} {l : List (String × β)} {k : String} {v : β}
    (hnd : (mapKeys l).Nodup) (hfind : mapFind l k = some v) : mapSet l k v = l := by
  have hc : mapContains l k = true := by
    rw [mapContains_eq_isSome, hfind]
    rfl
  rw [mapSet, if_pos hc]
  clear hc
  induction l with
  | nil => simp [mapFind] at hfind
  | cons e tl ih =>
    simp only [mapKeys, List.map_cons, List.nodup_cons] at hnd
    rw [mapFind_cons] at hfind
    by_cases hek : e.1 = k
    · rw [if_pos hek] at hfind
      injection hfind with hv
      have hctf : mapContains tl k = false := by
        rw [mapContains_false_iff]
        intro x hx hxk
        exact hnd.1 (hek ▸ hxk ▸ List.mem_map_of_mem (fun e => e.1) hx)
      rw [List.map_cons, if_pos hek, overwrite_of_not_contains v hctf, ← hek, ← hv]
    · rw [if_neg hek] at hfind
      rw [List.map_cons, if_neg hek, ih hnd.2 hfind]

theorem trimLocations_suffix (l : List Nat) : List.IsSuffix (trimLocations l) l := by
  induction l with
  | nil => exact List.suffix_refl _
  | cons x tl ih =>
    rw [trimLocations]
    by_cases h : (x :: tl).length > MAX_STORED_LOCATIONS
    · rw [if_pos h]
      exact ih.trans (List.suffix_cons x tl)
    · rw [if_neg h]

theorem trimLocations_length (l : List Nat) :
    (trimLocations l).length ≤ MAX_STORED_LOCATIONS := by
  induction l with
  | nil => simp [trimLocations, MAX_STORED_LOCATIONS]
  | cons x tl ih =>
    rw [trimLocations]
    by_cases h : (x :: tl).length > MAX_STORED_LOCATIONS
    · rw [if_pos h]
      exact ih
    · rw [if_neg h]
      omega

theorem chain_of_suffix {l1 l2 : List Nat} (h : List.Chain' (· < ·) l2)
    (hs : List.IsSuffix l1 l2) : List.Chain' (· < ·) l1 := by
  obtain ⟨t, ht⟩ := hs
  rw [← ht] at h
  exact (List.chain'_append.mp h).2.1

/-- Everything invariant about a Manager state: key uniqueness of both
registries, well-formedness of the peer registry, the shape of client
paths, accounting of `active_clients` and `InUse`, boundedness and strict
monotonicity of the location deque, and constancy of the grace duration. -/
structure ManagerInv (s : GeoClue2Manager) : Prop where
  path_nodup : (mapKeys s.clients_by_path).Nodup
  peer_nodup : (mapKeys s.clients_by_peer).Nodup
  path_keys : ∀ e ∈ s.clients_by_path,
      ∃ j, 1 ≤ j ∧ j ≤ s.next_client_id ∧ e.1 = clientPath j
  peer_valid : ∀ pr ∈ s.clients_by_peer,
      ∃ c, mapFind s.clients_by_path pr.2 = some c ∧ c.peer = pr.1
  count_eq : s.active_clients = countActive s.clients_by_path
  in_use_eq : s.in_use = decide (0 < s.active_clients)
  loc_chain : List.Chain' (· < ·) s.locations
  loc_len : s.locations.length ≤ MAX_STORED_LOCATIONS
  loc_le : ∀ x ∈ s.locations, x ≤ s.next_location_id
  grace_eq : s.grace_timeout_ms = 15000

theorem managerInv_init : ManagerInv {} := by
  constructor <;> simp [mapKeys, countActive]

/-- In a state satisfying the invariant, the freshly minted client path is
absent from the path registry. -/
theorem fresh_path_not_contains {s : GeoClue2Manager} (h : ManagerInv s) :
    mapContains s.clients_by_path (clientPath (s.next_client_id + 1)) = false := by
  rw [mapContains_false_iff]
  intro e he hek
  obtain ⟨j, _, hj, hjp⟩ := h.path_keys e he
  rw [hjp] at hek
  have := clientPath_injective hek
  omega

theorem managerInv_create (peer : String) (reuse : Bool) {s : GeoClue2Manager}
    (h : ManagerInv s) : ManagerInv (s.create_client_for_peer peer reuse).2 := by
  cases hhit : (if reuse then mapFind s.clients_by_peer peer else none) with
  | some path =>
    simp only [GeoClue2Manager.create_client_for_peer, hhit]
    exact h
  | none =>
    simp only [GeoClue2Manager.create_client_for_peer, hhit]
    have hfresh := fresh_path_not_contains h
    have hnone : mapFind s.clients_by_path (clientPath (s.next_client_id + 1)) = none :=
      mapFind_none_of_contains_false hfresh
    have happ := mapSet_of_find_none
      (β := GeoClue2Client) ({ peer := peer } : GeoClue2Client) hnone
    constructor
    · exact keysNodup_mapSet _ h.path_nodup
    · exact keysNodup_mapSet _ h.peer_nodup
    · intro e he
      rcases mem_mapSet he with he | ⟨he, _⟩
      · exact ⟨s.next_client_id + 1, by omega, le_refl _, by rw [he]⟩
      · obtain ⟨j, hj1, hj2, hjp⟩ := h.path_keys e he
        refine ⟨j, hj1, ?_, hjp⟩
        show j ≤ s.next_client_id + 1
        omega
    · intro pr hpr
      rcases mem_mapSet hpr with hpr | ⟨hpr, _⟩
      · refine ⟨{ peer := peer }, ?_, by rw [hpr]⟩
        rw [hpr]
        simp only
        rw [happ, mapFind_append_none _ hnone, if_pos rfl]
      · obtain ⟨c, hc, hcp⟩ := h.peer_valid pr hpr
        refine ⟨c, ?_, hcp⟩
        rw [happ]
        exact mapFind_append_left _ hc
    · simp only
      rw [happ, countActive_append_single]
      simp [h.count_eq]
    · exact h.in_use_eq
    · exact h.loc_chain
    · exact h.loc_len
    · exact h.loc_le
    · exact h.grace_eq

theorem on_handle_start_active {c : GeoClue2Client} (h : c.active = true) :
    c.on_handle_start = (c, [ClientEvent.completeStart]) := by
  simp [GeoClue2Client.on_handle_start, h]

theorem on_handle_start_inactive {c : GeoClue2Client} (h : c.active = false) :
    c.on_handle_start =
      ({ c with active := true },
       [ClientEvent.activeChanged true, ClientEvent.completeStart]) := by
  simp [GeoClue2Client.on_handle_start, GeoClue2Client.set_active, h]

theorem on_handle_stop_inactive {c : GeoClue2Client} (h : c.active = false) :
    c.on_handle_stop = (c, [ClientEvent.completeStop]) := by
  simp [GeoClue2Client.on_handle_stop, h]

theorem on_handle_stop_active {c : GeoClue2Client} (h : c.active = true) :
    c.on_handle_stop =
      ({ c with active := false },
       [ClientEvent.activeChanged false, ClientEvent.completeStop]) := by
  simp [GeoClue2Client.on_handle_stop, GeoClue2Client.set_active, h]

theorem managerInv_handle_start (path : String) {s : GeoClue2Manager}
    (h : ManagerInv s) : ManagerInv (s.handle_start path) := by
  cases hfind : mapFind s.clients_by_path path with
  | none =>
    simp only [GeoClue2Manager.handle_start, hfind]
    exact h
  | some c =>
    simp only [GeoClue2Manager.handle_start, hfind]
    by_cases hca : c.active
    · rw [on_handle_start_active hca]
      simp only [GeoClue2Manager.apply_client_events, List.foldl]
      rw [mapSet_self h.path_nodup hfind]
      exact h
    · have hcaf : c.active = false := by simpa using hca
      rw [on_handle_start_inactive hcaf]
      simp only [GeoClue2Manager.apply_client_events, List.foldl,
        GeoClue2Manager.client_became_active, GeoClue2Manager.update_in_use_property]
      have hcount := countActive_mapSet { c with active := true } h.path_nodup hfind
      rw [hcaf] at hcount
      simp only [Bool.false_eq_true, if_neg, if_false, if_pos] at hcount
      constructor
      · exact keysNodup_mapSet _ h.path_nodup
      · exact h.peer_nodup
      · intro e he
        rcases mem_mapSet he with he | ⟨he, _⟩
        · have := h.path_keys (path, c) (mapFind_mem hfind)
          rw [he]
          exact this
        · exact h.path_keys e he
      · intro pr hpr
        obtain ⟨c0, hc0, hcp⟩ := h.peer_valid pr hpr
        rw [mapFind_mapSet]
        by_cases hpp : pr.2 = path
        · rw [if_pos hpp]
          refine ⟨{ c with active := true }, rfl, ?_⟩
          rw [hpp] at hc0
          rw [hfind] at hc0
          injection hc0 with hc0
          rw [← hc0] at hcp
          exact hcp
        · rw [if_neg hpp]
          exact ⟨c0, hc0, hcp⟩
      · show s.active_clients + 1 = countActive (mapSet s.clients_by_path path _)
        have hce := h.count_eq
        omega
      · simp
      · exact h.loc_chain
      · exact h.loc_len
      · exact h.loc_le
      · exact h.grace_eq

/-- The invariant never mentions the pending-timer handle. -/
theorem managerInv_set_timer {s : GeoClue2Manager} (t : Option Nat)
    (h : ManagerInv s) : ManagerInv { s with grace_timer := t } :=
  ⟨h.path_nodup, h.peer_nodup, h.path_keys, h.peer_valid, h.count_eq,
   h.in_use_eq, h.loc_chain, h.loc_len, h.loc_le, h.grace_eq⟩

theorem managerInv_handle_stop (path : String) {s : GeoClue2Manager}
    (h : ManagerInv s) : ManagerInv (s.handle_stop path) := by
  cases hfind : mapFind s.clients_by_path path with
  | none =>
    simp only [GeoClue2Manager.handle_stop, hfind]
    exact h
  | some c =>
    simp only [GeoClue2Manager.handle_stop, hfind]
    by_cases hca : c.active
    · rw [on_handle_stop_active hca]
      simp only [GeoClue2Manager.apply_client_events, List.foldl,
        GeoClue2Manager.client_became_inactive, GeoClue2Manager.update_in_use_property]
      have hpos : 1 ≤ countActive s.clients_by_path :=
        countActive_pos h.path_nodup hfind hca
      have hce := h.count_eq
      have hcount := countActive_mapSet { c with active := false } h.path_nodup hfind
      rw [hca] at hcount
      simp only [if_pos, Bool.false_eq_true, if_neg, if_false] at hcount
      rw [if_neg (show ¬ s.active_clients = 0 by omega)]
      have hbase : ManagerInv
          (({ s with
              clients_by_path := mapSet s.clients_by_path path { c with active := false },
              active_clients := s.active_clients - 1 } :
            GeoClue2Manager).update_in_use_property) := by
        constructor
        · exact keysNodup_mapSet _ h.path_nodup
        · exact h.peer_nodup
        · intro e he
          rcases mem_mapSet he with he | ⟨he, _⟩
          · have := h.path_keys (path, c) (mapFind_mem hfind)
            rw [he]
            exact this
          · exact h.path_keys e he
        · intro pr hpr
          obtain ⟨c0, hc0, hcp⟩ := h.peer_valid pr hpr
          show ∃ c1, mapFind (mapSet s.clients_by_path path _) pr.2 = some c1 ∧ _
          rw [mapFind_mapSet]
          by_cases hpp : pr.2 = path
          · rw [if_pos hpp]
            refine ⟨{ c with active := false }, rfl, ?_⟩
            rw [hpp, hfind] at hc0
            injection hc0 with hc0
            rw [← hc0] at hcp
            exact hcp
          · rw [if_neg hpp]
            exact ⟨c0, hc0, hcp⟩
        · show s.active_clients - 1 = countActive (mapSet s.clients_by_path path _)
          omega
        · simp [GeoClue2Manager.update_in_use_property]
        · exact h.loc_chain
        · exact h.loc_len
        · exact h.loc_le
        · exact h.grace_eq
      split
      · exact managerInv_set_timer _ hbase
      · exact hbase
    · have hcaf : c.active = false := by simpa using hca
      rw [on_handle_stop_inactive hcaf]
      simp only [GeoClue2Manager.apply_client_events, List.foldl]
      rw [mapSet_self h.path_nodup hfind]
      exact h

theorem managerInv_remove (path : String) {s : GeoClue2Manager}
    (h : ManagerInv s) : ManagerInv (s.remove_client path) := by
  cases hfind : mapFind s.clients_by_path path with
  | none =>
    simp only [GeoClue2Manager.remove_client, hfind]
    exact h
  | some c =>
    simp only [GeoClue2Manager.remove_client, hfind,
      GeoClue2Manager.update_in_use_property]
    have hce := h.count_eq
    have hcount := countActive_mapErase h.path_nodup hfind
    have huniq : ∀ p1 p2, (p1, path) ∈ s.clients_by_peer →
        (p2, path) ∈ s.clients_by_peer → p1 = p2 := by
      intro p1 p2 h1 h2
      obtain ⟨c1, hf1, hp1⟩ := h.peer_valid (p1, path) h1
      obtain ⟨c2, hf2, hp2⟩ := h.peer_valid (p2, path) h2
      simp only at hf1 hf2 hp1 hp2
      rw [hf1] at hf2
      injection hf2 with hc12
      rw [← hp1, ← hp2, hc12]
    have hkeep : ∀ pr ∈ eraseFirstVal s.clients_by_peer path,
        ∃ c1, mapFind (mapErase s.clients_by_path path) pr.2 = some c1 ∧
          c1.peer = pr.1 := by
      intro pr hpr
      have hne := eraseFirstVal_not_value h.peer_nodup huniq pr hpr
      obtain ⟨c0, hc0, hcp⟩ := h.peer_valid pr (mem_eraseFirstVal hpr)
      refine ⟨c0, ?_, hcp⟩
      rw [mapFind_mapErase, if_neg hne]
      exact hc0
    by_cases hca : c.active
    · rw [hca] at hcount
      rw [if_pos hca]
      simp only [GeoClue2Manager.client_became_inactive,
        GeoClue2Manager.update_in_use_property]
      have hpos : 1 ≤ countActive s.clients_by_path :=
        countActive_pos h.path_nodup hfind hca
      rw [if_neg (show ¬ s.active_clients = 0 by omega)]
      have hbase : ManagerInv
          (({ s with
              clients_by_path := mapErase s.clients_by_path path,
              clients_by_peer := eraseFirstVal s.clients_by_peer path,
              active_clients := s.active_clients - 1 } :
            GeoClue2Manager).update_in_use_property) := by
        constructor
        · exact keysNodup_mapErase _ h.path_nodup
        · exact h.peer_nodup.sublist (keys_eraseFirstVal_sublist _ _)
        · intro e he
          exact h.path_keys e (mem_mapErase he)
        · exact hkeep
        · show s.active_clients - 1 = countActive (mapErase s.clients_by_path path)
          simp only [if_pos] at hcount
          omega
        · simp [GeoClue2Manager.update_in_use_property]
        · exact h.loc_chain
        · exact h.loc_len
        · exact h.loc_le
        · exact h.grace_eq
      split
      · exact managerInv_set_timer _ hbase
      · exact hbase
    · have hcaf : c.active = false := by simpa using hca
      rw [hcaf] at hcount
      simp only [Bool.false_eq_true, if_neg, if_false] at hcount
      rw [if_neg (show ¬ c.active = true by simp [hcaf])]
      constructor
      · exact keysNodup_mapErase _ h.path_nodup
      · exact h.peer_nodup.sublist (keys_eraseFirstVal_sublist _ _)
      · intro e he
        exact h.path_keys e (mem_mapErase he)
      · exact hkeep
      · show s.active_clients = countActive (mapErase s.clients_by_path path)
        omega
      · simp
      · exact h.loc_chain
      · exact h.loc_len
      · exact h.loc_le
      · exact h.grace_eq

theorem managerInv_foldl_remove (paths : List String) {s : GeoClue2Manager}
    (h : ManagerInv s) :
    ManagerInv (paths.foldl (fun s p => s.remove_client p) s) := by
  induction paths generalizing s with
  | nil => exact h
  | cons p tl ih =>
    rw [List.foldl_cons]
    exact ih (managerInv_remove p h)

theorem managerInv_peer_vanished (name : String) {s : GeoClue2Manager}
    (h : ManagerInv s) : ManagerInv (s.on_peer_vanished name) :=
  managerInv_foldl_remove _ h

theorem notify_preserves_active (p : String) (c : GeoClue2Client) :
    (c.notify_location_update p).active = c.active := by
  rw [GeoClue2Client.notify_location_update]
  by_cases hca : c.active
  · rw [if_neg (by simpa using hca)]
  · rw [if_pos (by simpa using hca)]

theorem notify_preserves_peer (p : String) (c : GeoClue2Client) :
    (c.notify_location_update p).peer = c.peer := by
  rw [GeoClue2Client.notify_location_update]
  by_cases hca : c.active
  · rw [if_neg (by simpa using hca)]
  · rw [if_pos (by simpa using hca)]

theorem mapKeys_mapValues {β γ : Type} (l : List (String × β)) (f : β → γ) :
    mapKeys (l.map (fun e => (e.1, f e.2))) = mapKeys l := by
  simp [mapKeys, List.map_map]

theorem managerInv_position_update {s : GeoClue2Manager} (h : ManagerInv s) :
    ManagerInv s.handle_position_update := by
  simp only [GeoClue2Manager.handle_position_update]
  have hchain : List.Chain' (· < ·) (s.locations ++ [s.next_location_id + 1]) := by
    rw [List.chain'_append]
    refine ⟨h.loc_chain, List.chain'_singleton _, ?_⟩
    intro x hx y hy
    rw [List.head?_cons, Option.mem_def, Option.some.injEq] at hy
    have hxl := List.mem_of_mem_getLast? hx
    have := h.loc_le x hxl
    omega
  have hsfx := trimLocations_suffix (s.locations ++ [s.next_location_id + 1])
  constructor
  · show (mapKeys (s.clients_by_path.map _)).Nodup
    rw [mapKeys_mapValues]
    exact h.path_nodup
  · exact h.peer_nodup
  · intro e he
    rw [List.mem_map] at he
    obtain ⟨e0, he0, heq⟩ := he
    obtain ⟨j, hj1, hj2, hjp⟩ := h.path_keys e0 he0
    exact ⟨j, hj1, hj2, by rw [← heq]; exact hjp⟩
  · intro pr hpr
    obtain ⟨c0, hc0, hcp⟩ := h.peer_valid pr hpr
    refine ⟨c0.notify_location_update
      (locationPath (s.next_location_id + 1)), ?_, ?_⟩
    · show mapFind (s.clients_by_path.map _) pr.2 = _
      rw [mapFind_mapValues, hc0]
      rfl
    · rw [notify_preserves_peer]
      exact hcp
  · show s.active_clients = countActive (s.clients_by_path.map _)
    rw [countActive_mapValues _ _ (fun c => notify_preserves_active _ c)]
    exact h.count_eq
  · exact h.in_use_eq
  · exact chain_of_suffix hchain hsfx
  · exact trimLocations_length _
  · intro x hx
    have := hsfx.subset hx
    rw [List.mem_append] at this
    rcases this with hm | hm
    · have := h.loc_le x hm
      show x ≤ s.next_location_id + 1
      omega
    · rw [List.mem_singleton] at hm
      show x ≤ s.next_location_id + 1
      omega
  · exact h.grace_eq

theorem managerInv_grace_timeout {s : GeoClue2Manager} (h : ManagerInv s) :
    ManagerInv s.on_grace_timeout := by
  rw [GeoClue2Manager.on_grace_timeout]
  cases s.grace_timer with
  | none => exact h
  | some t => exact managerInv_set_timer _ h

/-- The Manager invariant holds in every reachable state. -/
theorem managerInv_reachable {s : GeoClue2Manager} (h : s.Reachable) : ManagerInv s := by
  induction h with
  | init => exact managerInv_init
  | step o hr ih =>
    cases o with
    | getClient peer => exact managerInv_create peer true ih
    | createClient peer => exact managerInv_create peer false ih
    | deleteClient path => exact managerInv_remove path ih
    | peerVanished peer => exact managerInv_peer_vanished peer ih
    | startClient path => exact managerInv_handle_start path ih
    | stopClient path => exact managerInv_handle_stop path ih
    | positionUpdate => exact managerInv_position_update ih
    | graceTimeout => exact managerInv_grace_timeout ih

/-! ## Claim theorems -/

/-- C1 (code evaluation at the failing input): the source declares
`m_last_velocity.is_fresh` as `bool` (geoclue1_backend.h line 62), so the
assignment `is_fresh = VELOCITY_FRESH_STEPS` stores `true` and the single
decrement `is_fresh -= 1` performed by the first consuming position event
already clears it.  Hence after one velocity event (speed 2.5, heading 90,
climb 0), the FIRST position event carries the cached motion values, but
the SECOND — still within the claimed window of 2 — already carries the
`-1.0` sentinels, contradicting the claim (and spec scenario S2; the
velocity here is speed 3, heading 90, climb 0). -/
theorem c1_second_position_after_velocity_is_unknown :
    (Geoclue1Backend.on_velocity_changed
      { fields := 0, timestamp := 1700000001, speed := GDouble.num 3,
        direction := GDouble.num 90, climb := GDouble.num 0 } {}).1.is_fresh = true ∧
    VELOCITY_FRESH_STEPS = 2 ∧
    (Geoclue1Backend.on_position_changed
      { fields := 0, timestamp := 1700000002, latitude := GDouble.num 59,
        longitude := GDouble.num 24, altitude := GDouble.num 30,
        accuracy_level := 0, accuracy_h := GDouble.num 5, accuracy_v := GDouble.num 5 }
      (Geoclue1Backend.on_velocity_changed
        { fields := 0, timestamp := 1700000001, speed := GDouble.num 3,
          direction := GDouble.num 90, climb := GDouble.num 0 } {}).1).1.speed = 3 ∧
    (Geoclue1Backend.on_position_changed
      { fields := 0, timestamp := 1700000003, latitude := GDouble.num 59,
        longitude := GDouble.num 24, altitude := GDouble.num 30,
        accuracy_level := 0, accuracy_h := GDouble.num 5, accuracy_v := GDouble.num 5 }
      (Geoclue1Backend.on_position_changed
        { fields := 0, timestamp := 1700000002, latitude := GDouble.num 59,
          longitude := GDouble.num 24, altitude := GDouble.num 30,
          accuracy_level := 0, accuracy_h := GDouble.num 5, accuracy_v := GDouble.num 5 }
        (Geoclue1Backend.on_velocity_changed
          { fields := 0, timestamp := 1700000001, speed := GDouble.num 3,
            direction := GDouble.num 90, climb := GDouble.num 0 } {}).1).2).1.speed = -1 ∧
    (Geoclue1Backend.on_position_changed
      { fields := 0, timestamp := 1700000003, latitude := GDouble.num 59,
        longitude := GDouble.num 24, altitude := GDouble.num 30,
        accuracy_level := 0, accuracy_h := GDouble.num 5, accuracy_v := GDouble.num 5 }
      (Geoclue1Backend.on_position_changed
        { fields := 0, timestamp := 1700000002, latitude := GDouble.num 59,
          longitude := GDouble.num 24, altitude := GDouble.num 30,
          accuracy_level := 0, accuracy_h := GDouble.num 5, accuracy_v := GDouble.num 5 }
        (Geoclue1Backend.on_velocity_changed
          { fields := 0, timestamp := 1700000001, speed := GDouble.num 3,
            direction := GDouble.num 90, climb := GDouble.num 0 } {}).1).2).1.heading = -1 := by
  decide

/-- C10: for every `PositionChanged` payload and velocity-cache state, the
emitted position record copies latitude, longitude, altitude and the
horizontal accuracy from the payload unconditionally, and the parsed
`fields` bitmask has no influence at all on the handler's result. -/
theorem c10_fields_bitmask_never_consulted (p : PositionPayload) (v : VelocityCache) :
    ((Geoclue1Backend.on_position_changed p v).1.latitude = p.latitude ∧
     (Geoclue1Backend.on_position_changed p v).1.longitude = p.longitude ∧
     (Geoclue1Backend.on_position_changed p v).1.altitude = p.altitude ∧
     (Geoclue1Backend.on_position_changed p v).1.accuracy = p.accuracy_h) ∧
    ∀ otherBits : Int,
      Geoclue1Backend.on_position_changed { p with fields := otherBits } v =
        Geoclue1Backend.on_position_changed p v := by
  constructor
  · by_cases hv : v.is_fresh <;>
      simp [Geoclue1Backend.on_position_changed, hv]
  · intro otherBits
    by_cases hv : v.is_fresh <;>
      simp [Geoclue1Backend.on_position_changed, hv]

/-- All D-Bus calls of the start protocol succeed and `Master.Create`
returns a nonempty path. -/
def StartEnv.allOk (env : StartEnv) : Prop :=
  env.masterOk = true ∧ env.createOk = true ∧ ¬ env.createPath = "" ∧
  env.clientProxyOk = true ∧ env.setReqOk = true ∧ env.posStartOk = true

instance (env : StartEnv) : Decidable env.allOk := by
  rw [StartEnv.allOk]
  infer_instance

/-- C4 counterexample: if the start protocol fails after the
`PositionProviderChanged` subscription is installed (here: creating the
MasterClient proxy fails), `stop_tracking` skips `unsubscribe_signals`
(the backend is not tracking), so the subscription survives and
stop-after-start-after-stop does NOT return a fresh backend. -/
theorem c4_counterexample_roundtrip_fails_on_partial_start :
    ¬ (Geoclue1Backend.stop_tracking
        (Geoclue1Backend.start_tracking { clientProxyOk := false }
          (Geoclue1Backend.stop_tracking (Geoclue1Backend.fresh true))) =
       Geoclue1Backend.fresh true) := by
  decide

/-- C4 (amended): `start_tracking` from a tracking state changes nothing for
every call environment; `stop_tracking` is idempotent from every state; and
stop-after-start-after-stop on a fresh backend returns the fresh state
provided every D-Bus call of the start protocol succeeds (a start failing
after the provider-changed subscription leaves that subscription behind,
see the counterexample). -/
theorem c4_start_stop_idempotent_and_roundtrip :
    (∀ (env : StartEnv) (s : Geoclue1Backend), s.tracking = true →
      Geoclue1Backend.start_tracking env s = s) ∧
    (∀ s : Geoclue1Backend,
      Geoclue1Backend.stop_tracking (Geoclue1Backend.stop_tracking s) =
        Geoclue1Backend.stop_tracking s) ∧
    (∀ (c : Bool) (env : StartEnv), env.allOk →
      Geoclue1Backend.stop_tracking
        (Geoclue1Backend.start_tracking env
          (Geoclue1Backend.stop_tracking (Geoclue1Backend.fresh c))) =
        Geoclue1Backend.fresh c) := by
  refine ⟨?_, ?_, ?_⟩
  · intro env s h
    rw [Geoclue1Backend.start_tracking, if_pos h]
  · intro s
    cases htr : s.tracking <;>
      simp [Geoclue1Backend.stop_tracking, Geoclue1Backend.destroy_master_client,
        Geoclue1Backend.unsubscribe_signals, htr]
  · intro c env h
    obtain ⟨h1, h2, h3, h4, h5, h6⟩ := h
    cases c <;>
      simp [Geoclue1Backend.stop_tracking, Geoclue1Backend.destroy_master_client,
        Geoclue1Backend.unsubscribe_signals, Geoclue1Backend.start_tracking,
        Geoclue1Backend.ensure_master_client, Geoclue1Backend.fresh,
        h1, h2, h3, h4, h5, h6]

/-- C4 witness: the amended statement applied at concrete inputs (a
tracking backend for idempotent start, a fresh connected backend for
idempotent stop and the all-successful default environment for the round
trip). -/
theorem c4_witness :
    Geoclue1Backend.start_tracking {}
        { Geoclue1Backend.fresh true with tracking := true } =
      { Geoclue1Backend.fresh true with tracking := true } ∧
    Geoclue1Backend.stop_tracking
        (Geoclue1Backend.stop_tracking (Geoclue1Backend.fresh true)) =
      Geoclue1Backend.stop_tracking (Geoclue1Backend.fresh true) ∧
    Geoclue1Backend.stop_tracking
        (Geoclue1Backend.start_tracking {}
          (Geoclue1Backend.stop_tracking (Geoclue1Backend.fresh true))) =
      Geoclue1Backend.fresh true :=
  ⟨c4_start_stop_idempotent_and_roundtrip.1 {} _ rfl,
   c4_start_stop_idempotent_and_roundtrip.2.1 _,
   c4_start_stop_idempotent_and_roundtrip.2.2 true {} (by decide)⟩

/-- C8: whenever `PositionProviderChanged` carries a nonempty service and
path and a Provider proxy already exists, the handler's reference-call
trace starts with `RemoveReference` on the outgoing provider, and an
`AddReference` on the incoming provider can only follow it; an event with
an empty service or an empty path changes neither the proxies nor any
reference count. -/
theorem c8_provider_swap_ref_order (env : ProviderEnv) (p : ProviderPayload)
    (s : Geoclue1Backend) :
    (∀ old, ¬ p.service = "" → ¬ p.path = "" → s.provider_proxy = some old →
      (Geoclue1Backend.on_position_provider_changed env p s).2 =
        RefEvent.removeRef old.1 old.2 ::
          (if env.providerProxyOk then [RefEvent.addRef p.service p.path] else [])) ∧
    ((p.service = "" ∨ p.path = "") →
      Geoclue1Backend.on_position_provider_changed env p s = (s, [])) := by
  constructor
  · intro old hs hp hold
    rw [Geoclue1Backend.on_position_provider_changed,
      if_neg (by simp [hs, hp])]
    by_cases hpo : env.providerProxyOk <;> by_cases hps : env.positionProxyOk <;>
      simp [hold, hpo, hps]
  · intro hor
    rw [Geoclue1Backend.on_position_provider_changed, if_pos hor]

/-- C8 witness: the trace ordering applied at a concrete provider swap
(provider X = ("org.x", "/p") replaced by Y = ("org.y", "/q")), and the
no-op behaviour at a concrete empty-path event. -/
theorem c8_witness :
    (Geoclue1Backend.on_position_provider_changed {}
        { name := "gps", desc := "d", service := "org.y", path := "/q" }
        { Geoclue1Backend.fresh true with provider_proxy := some ("org.x", "/p") }).2 =
      RefEvent.removeRef "org.x" "/p" ::
        (if ({} : ProviderEnv).providerProxyOk then
          [RefEvent.addRef "org.y" "/q"] else []) ∧
    Geoclue1Backend.on_position_provider_changed {}
        { name := "gps", desc := "d", service := "org.y", path := "" }
        { Geoclue1Backend.fresh true with provider_proxy := some ("org.x", "/p") } =
      ({ Geoclue1Backend.fresh true with provider_proxy := some ("org.x", "/p") }, []) :=
  ⟨(c8_provider_swap_ref_order {} _ _).1 ("org.x", "/p")
      (by decide) (by decide) rfl,
   (c8_provider_swap_ref_order {} _ _).2 (Or.inr rfl)⟩

/-- C9: `Start()` on an already-active client completes successfully with
no state change and no active-changed callback; on an inactive client it
sets `Active`, invokes the callback exactly once, and then completes.
`Stop()` is symmetric. -/
theorem c9_client_start_stop (c : GeoClue2Client) :
    (c.active = true → c.on_handle_start = (c, [ClientEvent.completeStart])) ∧
    (c.active = false → c.on_handle_start =
      ({ c with active := true },
       [ClientEvent.activeChanged true, ClientEvent.completeStart])) ∧
    (c.active = false → c.on_handle_stop = (c, [ClientEvent.completeStop])) ∧
    (c.active = true → c.on_handle_stop =
      ({ c with active := false },
       [ClientEvent.activeChanged false, ClientEvent.completeStop])) :=
  ⟨on_handle_start_active, on_handle_start_inactive,
   on_handle_stop_inactive, on_handle_stop_active⟩

/-- C9 witness: `Start()` on a concrete inactive client activates it with
exactly one callback before completion, and `Stop()` on the result is the
symmetric transition. -/
theorem c9_witness :
    ({ peer := "peerA" } : GeoClue2Client).on_handle_start =
      ({ peer := "peerA", active := true, location_path := "/" },
       [ClientEvent.activeChanged true, ClientEvent.completeStart]) ∧
    ({ peer := "peerA", active := true, location_path := "/" } :
        GeoClue2Client).on_handle_stop =
      ({ peer := "peerA", active := false, location_path := "/" },
       [ClientEvent.activeChanged false, ClientEvent.completeStop]) :=
  ⟨(c9_client_start_stop _).2.1 rfl, (c9_client_start_stop _).2.2.2 rfl⟩

/-- The property claimed for C2: every client entity appears in both the
peer-keyed and the path-keyed registry, or in neither (since client
entities live in the path registry, the two directions say: every
peer-registry entry references a registered client, and every registered
client is referenced by some peer-registry entry). -/
def clientsInBothOrNeither (s : GeoClue2Manager) : Prop :=
  (∀ pr ∈ s.clients_by_peer, ∃ e ∈ s.clients_by_path, e.1 = pr.2) ∧
  (∀ e ∈ s.clients_by_path, ∃ pr ∈ s.clients_by_peer, pr.2 = e.1)

instance (s : GeoClue2Manager) : Decidable (clientsInBothOrNeither s) :=
  decidable_of_iff
    ((∀ pr ∈ s.clients_by_peer, ∃ e ∈ s.clients_by_path, e.1 = pr.2) ∧
     (∀ e ∈ s.clients_by_path, ∃ pr ∈ s.clients_by_peer, pr.2 = e.1))
    Iff.rfl

/-- `CommandLineOptions` and `parse_command_line` (main.cpp lines 76-105):
`--debug` sets the flag, `--grace-timeout=<ms>` stores the integer
(`G_OPTION_ARG_INT`) into `grace_timeout_ms`, whose initializer is 15000.
The parsed option values are represented by what the option parser
extracted from argv. -/
structure CommandLineOptions where
  debug : Bool := false
  grace_timeout_ms : Int := 15000
deriving DecidableEq

def parse_command_line (debugFlag : Bool) (graceArg : Option Int) :
    CommandLineOptions :=
  { debug := debugFlag, grace_timeout_ms := graceArg.getD 15000 }

/-- The Manager as constructed by `main` (main.cpp lines 148-228):
`geoclue2_manager_register(connection)` receives only the bus connection;
`options.grace_timeout_ms` is never passed to it (the comment at
main.cpp lines 167-171 announces the wiring, but no call performs it), so
the Manager keeps the in-class initializer `m_grace_timeout_ms = 15000`
(geoclue2_manager.h line 72) regardless of the command line. -/
def main_manager_state (_options : CommandLineOptions) : GeoClue2Manager := {}

/-- C3 (code evaluation at the failing input `--grace-timeout=1000`):
parsing stores 1000 in the options, but the Manager constructed by `main`
still carries 15000, and after a client starts and stops the armed grace
timer uses 15000 ms, not the requested 1000 ms. -/
theorem c3_grace_timeout_option_ignored :
    (parse_command_line false (some 1000)).grace_timeout_ms = 1000 ∧
    (main_manager_state (parse_command_line false (some 1000))).grace_timeout_ms
      = 15000 ∧
    (GeoClue2Manager.applyOp (ManagerOp.stopClient (clientPath 1))
        (GeoClue2Manager.applyOp (ManagerOp.startClient (clientPath 1))
          (GeoClue2Manager.applyOp (ManagerOp.getClient "peerA")
            (main_manager_state
              (parse_command_line false (some 1000)))))).grace_timer =
      some 15000 := by
  decide

/-- The clients registered (in the path map) that were created for peer
`p`. -/
def clientsOfPeer (p : String) (s : GeoClue2Manager) :
    List (String × GeoClue2Client) :=
  s.clients_by_path.filter (fun e => e.2.peer == p)

/-- `n` back-to-back `CreateClient()` calls by peer `p`; returns the list
of client paths handed back to the caller together with the final state. -/
def createClientN (p : String) : Nat → GeoClue2Manager → List String × GeoClue2Manager
  | 0, s => ([], s)
  | n + 1, s =>
    let r := s.create_client_for_peer p false
    let rest := createClientN p n r.2
    (r.1 :: rest.1, rest.2)

theorem create_false_eq (p : String) (s : GeoClue2Manager) :
    s.create_client_for_peer p false =
      (clientPath (s.next_client_id + 1),
       { s with
          next_client_id := s.next_client_id + 1,
          clients_by_peer :=
            mapSet s.clients_by_peer p (clientPath (s.next_client_id + 1)),
          clients_by_path :=
            mapSet s.clients_by_path (clientPath (s.next_client_id + 1))
              { peer := p } }) := rfl

theorem clientsOfPeer_after_mint (p : String) {s : GeoClue2Manager}
    (h : ManagerInv s) :
    clientsOfPeer p (s.create_client_for_peer p false).2 =
      clientsOfPeer p s ++
        [(clientPath (s.next_client_id + 1),
          ({ peer := p } : GeoClue2Client))] := by
  have hnone := mapFind_none_of_contains_false (fresh_path_not_contains h)
  have happ := mapSet_of_find_none ({ peer := p } : GeoClue2Client) hnone
  rw [create_false_eq]
  show (mapSet s.clients_by_path _ _).filter _ = _
  rw [happ, List.filter_append]
  simp [clientsOfPeer]

theorem createClientN_spec (p : String) (n : Nat) :
    ∀ {s : GeoClue2Manager}, ManagerInv s →
    (createClientN p n s).1 =
      (List.range n).map (fun i => clientPath (s.next_client_id + 1 + i)) ∧
    ManagerInv (createClientN p n s).2 ∧
    (createClientN p n s).2.next_client_id = s.next_client_id + n ∧
    (clientsOfPeer p (createClientN p n s).2).length =
      (clientsOfPeer p s).length + n := by
  induction n with
  | zero =>
    intro s h
    exact ⟨rfl, h, rfl, rfl⟩
  | succ n ih =>
    intro s h
    have hinv1 : ManagerInv (s.create_client_for_peer p false).2 :=
      managerInv_create p false h
    obtain ⟨ih1, ih2, ih3, ih4⟩ := ih hinv1
    have hnext : (s.create_client_for_peer p false).2.next_client_id =
        s.next_client_id + 1 := by
      rw [create_false_eq]
    have hmint := clientsOfPeer_after_mint p h
    refine ⟨?_, ih2, ?_, ?_⟩
    · show (s.create_client_for_peer p false).1 ::
        (createClientN p n (s.create_client_for_peer p false).2).1 = _
      rw [ih1, hnext, List.range_succ_eq_map, List.map_cons, List.map_map]
      congr 1
      apply List.map_congr_left
      intro i _
      show clientPath (s.next_client_id + 1 + 1 + i) =
        clientPath (s.next_client_id + 1 + (i + 1))
      congr 1
      omega
    · show (createClientN p n (s.create_client_for_peer p false).2).2.next_client_id = _
      omega
    · show (clientsOfPeer p
          (createClientN p n (s.create_client_for_peer p false).2).2).length = _
      rw [ih4, hmint, List.length_append]
      simp
      omega

